import Mathlib

/-!
# drone-plugin-sonar: a verification development

A shallow embedding of `plugin.go` and `main.go` and theorems about it.

Go strings are modelled as lists of characters, which covers the strings that
are valid UTF-8.  Every string operation the plugin performs (concatenation,
comparison, replacing `/` by `:`, matching a pattern whose literals are ASCII
and whose only class is `.`) acts in the same way on the UTF-8 bytes of such a
text and on its characters.
-/

namespace Sonar

/-- A Go `string`. -/
abbrev Str := List Char

/-! ## The `regexp` patterns used by the plugin -/

/-- One element of a pattern: a literal character, an optional literal
character `c?`, or `.*`.  The pattern of `parseOutput` is a sequence of
these. -/
inductive Item
  | lit (c : Char)
  | opt (c : Char)
  | anyStar
  deriving DecidableEq, Repr

/-- What `.` matches: every character but the newline. -/
def dot (c : Char) : Bool := c != '\n'

/-- Greedy `.*` followed by the rest of the pattern, `k`: take one more
character when that leads to a match, otherwise stop here. -/
def matchStar (k : Str → Option Str) : Str → Option Str
  | [] => k []
  | x :: s =>
    if dot x then
      match matchStar k s with
      | some m => some (x :: m)
      | none => k (x :: s)
    else k (x :: s)

/-- The match of pattern `p` that starts at the beginning of the input, in the
order of preference of Go's `regexp` (that of a backtracking search, greedy
operators trying the longer alternative first); the matched text is
returned. -/
def matchHere : List Item → Str → Option Str
  | [] => fun _ => some []
  | Item.lit c :: p => fun s =>
    match s with
    | [] => none
    | x :: s => if x = c then (matchHere p s).map (x :: ·) else none
  | Item.opt c :: p => fun s =>
    match s with
    | [] => matchHere p []
    | x :: s =>
      if x = c then
        match matchHere p s with
        | some m => some (x :: m)
        | none => matchHere p (x :: s)
      else matchHere p (x :: s)
  | Item.anyStar :: p => fun s => matchStar (matchHere p) s

/-- The leftmost match, `Regexp.FindStringSubmatch` for a pattern without
groups: `none` is the `nil` slice returned when nothing matches, `some m` the
slice whose element 0 is the matched text `m`. -/
def FindStringSubmatch (p : List Item) : Str → Option Str
  | [] => matchHere p []
  | x :: s =>
    match matchHere p (x :: s) with
    | some m => some m
    | none => FindStringSubmatch p s

/-- The literal characters of a text as pattern items. -/
def lits (w : Str) : List Item := w.map Item.lit

/-- The text `/api/ce/task?id=`. -/
def taskPath : Str := "/api/ce/task?id=".toList

/-- The pattern `https?:\/\/.*\/api\/ce\/task\?id=.*` compiled in
`parseOutput`. -/
def jobId : List Item :=
  lits "http".toList ++ [Item.opt 's'] ++ lits "://".toList ++ [Item.anyStar]
    ++ lits taskPath ++ [Item.anyStar]

/-! ## Failures that end the process -/

/-- The ways the process ends other than by returning from `Exec`:
`logrus...Fatal(msg)` logs and calls `os.Exit(1)`; a run-time panic prints its
message and exits with status 2. -/
inductive Failure
  | fatal (msg : Str)
  | panic (msg : Str)
  deriving DecidableEq, Repr

/-- The run-time panic of indexing a `nil` slice at 0. -/
def indexOutOfRange : Failure :=
  Failure.panic "runtime error: index out of range [0] with length 0".toList

/-- Function `parseOutput`: `result[0]` of `jobId.FindStringSubmatch(outs)`.
Indexing the `nil` result of a failed search panics. -/
def parseOutput (outs : Str) : Except Failure Str :=
  match FindStringSubmatch jobId outs with
  | some m => Except.ok m
  | none => Except.error indexOutOfRange

deriving instance DecidableEq for Except

/-! ## `strings.Replace` and the project key -/

/-- The scan of `strings.Replace(s, old, new, -1)` for a non-empty `old`: where
`old` begins, `new` is written and the characters of `old` are skipped (the
counter says how many are still to skip); other characters are copied. -/
def replaceFrom (old new : Str) : Nat → Str → Str
  | _, [] => []
  | skip + 1, _ :: s => replaceFrom old new skip s
  | 0, c :: s =>
    if old.isPrefixOf (c :: s) then new ++ replaceFrom old new (old.length - 1) s
    else c :: replaceFrom old new 0 s

/-- The call `strings.Replace(s, old, new, -1)`, every occurrence replaced. -/
def Replace (s old new : Str) : Str := replaceFrom old new 0 s

/-- The expression `strings.Replace(p.Key, "/", ":", -1)` of
`buildScannerProperties` and of `Exec`. -/
def normalizedKey (key : Str) : Str := Replace key "/".toList ":".toList

/-! ## The plugin and the world it runs in -/

/-- The `Plugin` struct. -/
structure Plugin where
  Host : Str
  Token : Str
  Key : Str
  Name : Str
  Version : Str
  Sources : Str
  Inclusions : Str
  Exclusions : Str
  Language : Str
  Profile : Str
  Encoding : Str
  Remote : Str
  Branch : Str
  Quality : Str
  deriving DecidableEq

/-- The arguments of `http.NewRequest` and the headers added to the request. -/
structure Request where
  method : Str
  url : Str
  body : Str
  headers : List (Str × Str)
  deriving DecidableEq

/-- What becomes of a request: `http.NewRequest` fails on the URL (its error is
dropped, the request is `nil` and `req.Header.Add` panics),
`http.DefaultClient.Do` returns an error, the answer never comes (the default
client has no timeout, so `Do` does not return), or the body of the response
is read. -/
inductive Reply
  | invalid
  | failed
  | stalled
  | body (b : Str)
  deriving DecidableEq

/-- The `Task` struct inside `jobStatus` of `checkSonarJobStatus`. -/
structure Task where
  ID : Str
  /-- Field `Type` of the source. -/
  Type_ : Str
  ComponentID : Str
  ComponentKey : Str
  ComponentName : Str
  ComponentQualifier : Str
  AnalysisID : Str
  Status : Str
  SubmittedAt : Str
  SubmitterLogin : Str
  StartedAt : Str
  ExecutedAt : Str
  ExecutionTimeMs : Int
  Logs : Bool
  HasScannerContext : Bool
  Organization : Str
  deriving DecidableEq

/-- The type `jobStatus` of `checkSonarJobStatus`. -/
structure JobStatus where
  Task : Task
  deriving DecidableEq

/-- An element of `Conditions` in `responseStr`. -/
structure Condition where
  Status : Str
  MetricKey : Str
  Comparator : Str
  PeriodIndex : Int
  ErrorThreshold : Str
  ActualValue : Str
  deriving DecidableEq

/-- An element of `Periods` in `responseStr`. -/
structure Period where
  Index : Int
  Mode : Str
  Date : Str
  Parameter : Str
  deriving DecidableEq

/-- The `ProjectStatus` struct inside `responseStr` of `checkStatus`. -/
structure ProjectStatus where
  Status : Str
  Conditions : List Condition
  Periods : List Period
  IgnoredConditions : Bool
  deriving DecidableEq

/-- The type `responseStr` of `checkStatus`. -/
structure ResponseStr where
  ProjectStatus : ProjectStatus
  deriving DecidableEq

/-- Everything outside the plugin that one run depends on: the template and
file operations of `buildScannerProperties`, the run of `sonar-scanner`, the
HTTP server and the time its answers take, `json.Unmarshal` at the two struct
types, and the choice `select` makes when both of its channels are ready. -/
structure World where
  /-- `template.ParseFiles` returns no error. -/
  parseFiles : Bool
  /-- `os.Create` returns no error. -/
  create : Bool
  /-- `tmpl.ExecuteTemplate` on the plugin returns no error. -/
  executeTemplate : Plugin → Bool
  /-- The captured standard output of `sonar-scanner`, `none` when `cmd.Run`
  returns an error. -/
  scanner : Option Str
  /-- The outcome of a request, given how many requests were made before. -/
  httpDo : Nat → Request → Reply
  /-- The milliseconds `http.DefaultClient.Do` and the reading of the body
  take for a request, given how many requests were made before. -/
  latency : Nat → Nat
  /-- `json.Unmarshal` into a `jobStatus`, `none` for an error. -/
  unmarshalJobStatus : Str → Option JobStatus
  /-- `json.Unmarshal` into a `responseStr`, `none` for an error. -/
  unmarshalResponse : Str → Option ResponseStr
  /-- The pseudo-random choice of `select` when the tick and the deadline are
  both ready, given the number of ticks received so far: `true` for the
  tick. -/
  pickTick : Nat → Bool

/-- The panic of `req.Header.Add` on a `nil` request. -/
def nilDereference : Failure :=
  Failure.panic "runtime error: invalid memory address or nil pointer dereference".toList

/-- The two headers added to every request. -/
def requestHeaders : List (Str × Str) :=
  [("Content-Type".toList, "application/x-www-form-urlencoded".toList),
   ("Cache-Control".toList, "no-cache".toList)]

/-- Method `buildScannerProperties`: the key is normalised in the receiver's
copy of the plugin, the template is parsed, the properties file created and
the template executed on the copy; each failure is fatal, and the returned error is
always `nil` (`none`). -/
def buildScannerProperties (w : World) (p : Plugin) : Except Failure (Option Str) :=
  let p := { p with Key := normalizedKey p.Key }
  if !w.parseFiles then Except.error (Failure.fatal "Template parsing failed".toList)
  else if !w.create then
    Except.error (Failure.fatal "sonar-properties file creation failed".toList)
  else if !w.executeTemplate p then
    Except.error (Failure.fatal "Template execution failed".toList)
  else Except.ok none

/-- Function `staticScan`: run the scanner, then `parseOutput` on its standard
output. -/
def staticScan (w : World) : Except Failure Str :=
  match w.scanner with
  | none => Except.error (Failure.fatal "Run command failed".toList)
  | some outStr => parseOutput outStr

/-- The request of `getStatus`. -/
def statusRequest (sonarUrl Key : Str) : Request :=
  { method := "POST".toList
    url := sonarUrl ++ "/api/qualitygates/project_status".toList
    body := "projectKey=".toList ++ Key
    headers := requestHeaders }

/-- Function `getStatus`, with the list of the requests built so far.  When
`http.NewRequest` fails no request is built and the first `Header.Add`
panics; the result is `none` when `Do` never returns. -/
def getStatus (w : World) (sent : List Request) (sonarUrl Key : Str) :
    List Request × Option (Except Failure Str) :=
  let req := statusRequest sonarUrl Key
  match w.httpDo sent.length req with
  | Reply.invalid => (sent, some (Except.error nilDereference))
  | Reply.failed =>
    (sent ++ [req], some (Except.error (Failure.fatal "Failed get status".toList)))
  | Reply.stalled => (sent ++ [req], none)
  | Reply.body b => (sent ++ [req], some (Except.ok b))

/-- Function `checkStatus`. -/
def checkStatus (w : World) (b : Str) : Except Failure Str :=
  match w.unmarshalResponse b with
  | none => Except.error (Failure.fatal "Failed".toList)
  | some data => Except.ok data.ProjectStatus.Status

/-- Function `checkSonarJobStatus`. -/
def checkSonarJobStatus (w : World) (b : Str) : Except Failure Str :=
  match w.unmarshalJobStatus b with
  | none => Except.error (Failure.fatal "Failed".toList)
  | some status => Except.ok status.Task.Status

/-- The request of `getSonarJobStatus`. -/
def jobRequest (j : Str) : Request :=
  { method := "GET".toList, url := j, body := [], headers := requestHeaders }

/-- Function `getSonarJobStatus`, with the list of the requests built so far.
When `http.NewRequest` fails no request is built and the first `Header.Add`
panics; the result is `none` when `Do` never returns. -/
def getSonarJobStatus (w : World) (sent : List Request) (j : Str) :
    List Request × Option (Except Failure Str) :=
  let req := jobRequest j
  match w.httpDo sent.length req with
  | Reply.invalid => (sent, some (Except.error nilDereference))
  | Reply.failed =>
    (sent ++ [req], some (Except.error (Failure.fatal "Failed get sonar job status".toList)))
  | Reply.stalled => (sent ++ [req], none)
  | Reply.body b => (sent ++ [req], some (Except.ok b))

/-! ## The polling loop -/

/-- The deadline `time.After(5 * time.Second)`, in milliseconds. -/
def timeoutMs : Nat := 5 * 1000

/-- The period of `time.Tick(500 * time.Millisecond)`, in milliseconds. -/
def tickMs : Nat := 500

/-- The channel a `select` of `waitForSonarJob` receives from. -/
inductive Event
  | timeout
  | tick
  deriving DecidableEq

/-- Where `waitForSonarJob` stands: in its loop, returned `true, nil`, returned
`false, errors.New("timed out")`, ended with the process, or blocked for ever
in a status query that gets no answer. -/
inductive Phase
  | waiting
  | succeeded
  | timedOut
  | exited (f : Failure)
  | blocked
  deriving DecidableEq

/-- The state of `waitForSonarJob`: its phase, the number of ticks received
(each is followed by one call of `getSonarJobStatus`), the requests built so
far, and the clock, in
milliseconds since the two timers were started: `now` is the time at which
the loop is at its `select` (in a phase other than waiting, the time it got
there), `taken` the time of the last receive from the tick channel. -/
structure Poller where
  phase : Phase
  ticks : Nat
  sent : List Request
  now : Nat
  taken : Nat
  deriving DecidableEq

/-- A tick is waiting in the channel of `time.Tick`: the ticker fires at the
multiples of `tickMs`, its channel holds one tick and further ticks are
dropped while it is full, so a tick is waiting exactly when a multiple of
`tickMs` lies after the last receive and not after `now`. -/
def tickReady (s : Poller) : Bool := decide (s.taken / tickMs < s.now / tickMs)

/-- The deadline has passed: the channel of `time.After` holds its value. -/
def deadlineReady (s : Poller) : Bool := decide (timeoutMs ≤ s.now)

/-- The first multiple of `tickMs` after `now`. -/
def nextTick (s : Poller) : Nat := (s.now / tickMs + 1) * tickMs

/-- The `select` of `waitForSonarJob`: the channel received from and the time
of the receive.  A channel that is ready is received from at once, and with
both ready the choice is the world's; with none ready the loop sleeps until
the next tick or the deadline, whichever is first, and when both fall in the
same millisecond the choice is again the world's. -/
def select (w : World) (s : Poller) : Event × Nat :=
  if tickReady s && deadlineReady s then
    (if w.pickTick s.ticks then Event.tick else Event.timeout, s.now)
  else if tickReady s then (Event.tick, s.now)
  else if deadlineReady s then (Event.timeout, s.now)
  else if nextTick s < timeoutMs then (Event.tick, nextTick s)
  else if timeoutMs < nextTick s then (Event.timeout, timeoutMs)
  else (if w.pickTick s.ticks then Event.tick else Event.timeout, timeoutMs)

/-- One pass through the `for` loop of `waitForSonarJob`: the `select`, and on
a tick the status query, which takes its latency, and the test of the
status. -/
def pollStep (w : World) (j : Str) (s : Poller) : Poller :=
  match s.phase with
  | Phase.waiting =>
    match select w s with
    | (Event.timeout, t) => { s with phase := Phase.timedOut, now := t }
    | (Event.tick, t) =>
      match getSonarJobStatus w s.sent j with
      | (sent, none) =>
        { phase := Phase.blocked, ticks := s.ticks + 1, sent := sent, now := t, taken := t }
      | (sent, some (Except.error f)) =>
        { phase := Phase.exited f, ticks := s.ticks + 1, sent := sent,
          now := t + w.latency s.sent.length, taken := t }
      | (sent, some (Except.ok b)) =>
        match checkSonarJobStatus w b with
        | Except.error f =>
          { phase := Phase.exited f, ticks := s.ticks + 1, sent := sent,
            now := t + w.latency s.sent.length, taken := t }
        | Except.ok status =>
          if status = "SUCCESS".toList then
            { phase := Phase.succeeded, ticks := s.ticks + 1, sent := sent,
              now := t + w.latency s.sent.length, taken := t }
          else
            { phase := Phase.waiting, ticks := s.ticks + 1, sent := sent,
              now := t + w.latency s.sent.length, taken := t }
  | _ => s

/-- At most `fuel` passes through the loop. -/
def pollLoop (w : World) (j : Str) : Nat → Poller → Poller
  | 0, s => s
  | fuel + 1, s => pollLoop w j fuel (pollStep w j s)

/-- Function `waitForSonarJob`, run for at most `fuel` passes of its loop,
given the requests built before the call; the clock starts with the call. -/
def waitForSonarJob (w : World) (sent : List Request) (j : Str) (fuel : Nat) : Poller :=
  pollLoop w j fuel { phase := Phase.waiting, ticks := 0, sent := sent, now := 0, taken := 0 }

/-- What `waitForSonarJob` returns in a phase in which it has returned. -/
def Phase.returned : Phase → Option (Bool × Option Str)
  | Phase.succeeded => some (true, none)
  | Phase.timedOut => some (false, some "timed out".toList)
  | _ => none

/-! ## `Exec` and the exit status -/

/-- The condition `s != p.Quality || s != "OK"` of `Exec`. -/
def gateFailed (s quality : Str) : Bool := s != quality || s != "OK".toList

/-- A run of `Exec`: the requests built and how it ended: `none` when `Exec`
has not returned (the polling loop is still going when the fuel is used up, or
a request gets no answer), otherwise the returned error (`nil` is `none`) or
the failure that ended the process. -/
structure Run where
  sent : List Request
  result : Option (Except Failure (Option Str))
  deriving DecidableEq

/-- Method `Exec`. -/
def Exec (w : World) (fuel : Nat) (p : Plugin) : Run :=
  match buildScannerProperties w p with
  | Except.error f => ⟨[], some (Except.error f)⟩
  | Except.ok (some err) => ⟨[], some (Except.ok (some err))⟩
  | Except.ok none =>
    match staticScan w with
    | Except.error f => ⟨[], some (Except.error f)⟩
    | Except.ok j =>
      let poll := waitForSonarJob w [] j fuel
      match poll.phase with
      | Phase.waiting => ⟨poll.sent, none⟩
      | Phase.blocked => ⟨poll.sent, none⟩
      | Phase.exited f => ⟨poll.sent, some (Except.error f)⟩
      | Phase.timedOut =>
        ⟨poll.sent, some (Except.error (Failure.fatal "Unable to get Job state".toList))⟩
      | Phase.succeeded =>
        let Key := normalizedKey p.Key ++ (":".toList ++ p.Branch)
        match getStatus w poll.sent p.Host Key with
        | (sent, none) => ⟨sent, none⟩
        | (sent, some (Except.error f)) => ⟨sent, some (Except.error f)⟩
        | (sent, some (Except.ok body)) =>
          match checkStatus w body with
          | Except.error f => ⟨sent, some (Except.error f)⟩
          | Except.ok s =>
            if gateFailed s p.Quality then
              ⟨sent, some (Except.error (Failure.fatal "QualityGate status failed".toList))⟩
            else ⟨sent, some (Except.ok none)⟩

/-- The exit status of the process, from `run` in `main.go`: 0 when `Exec`
returns `nil`, 1 when it returns an error or logs a fatal entry, 2 after a
panic. -/
def exitCode : Except Failure (Option Str) → Nat
  | Except.ok none => 0
  | Except.ok (some _) => 1
  | Except.error (Failure.fatal _) => 1
  | Except.error (Failure.panic _) => 2

/-! ## Notions used to state the properties of `parseOutput` -/

/-- The first line of a text: its characters up to the first newline. -/
def line (s : Str) : Str := s.takeWhile dot

/-- The text `http://`. -/
def http : Str := "http://".toList

/-- The text `https://`. -/
def https : Str := "https://".toList

/-- A text that begins with `http://` or `https://` and has
`/api/ce/task?id=` later on its first line. -/
def StartsJob (s : Str) : Prop :=
  (http <+: s ∧ taskPath <:+: line (s.drop http.length)) ∨
  (https <+: s ∧ taskPath <:+: line (s.drop https.length))

instance (s : Str) : Decidable (StartsJob s) := by
  unfold StartsJob
  infer_instance

/-- A text of the shape the pattern of `parseOutput` describes:
`http://` or `https://`, any text, `/api/ce/task?id=`, any text, all without
newline. -/
def IsJobUrl (u : Str) : Prop :=
  ∃ mid tail : Str, (u = http ++ mid ++ taskPath ++ tail ∨ u = https ++ mid ++ taskPath ++ tail)
    ∧ '\n' ∉ u

/-! ## Notions used to state the properties of the poller and of `Exec` -/

/-- Every status query for job `j` is answered, and the answer decodes to a
task status other than `SUCCESS`. -/
def NeverSucceeds (w : World) (j : Str) : Prop :=
  ∀ n, ∃ b status, w.httpDo n (jobRequest j) = Reply.body b
    ∧ checkSonarJobStatus w b = Except.ok status ∧ status ≠ "SUCCESS".toList

/-- Every request takes less than the period of the ticker, so a status query
is over before the next tick is due. -/
def FastReplies (w : World) : Prop := ∀ n, w.latency n < tickMs

/-- The poller is waiting after `k` ticks, each received when it fired and
answered before the next one: `k` status queries were added to `sent`, the
last tick was taken at `tickMs * k` and the next is not yet due. -/
def OnTime (j : Str) (sent : List Request) (k : Nat) (s : Poller) : Prop :=
  s.phase = Phase.waiting ∧ s.ticks = k
    ∧ s.sent = sent ++ List.replicate k (jobRequest j)
    ∧ s.taken = tickMs * k ∧ tickMs * k ≤ s.now ∧ s.now < tickMs * (k + 1)

/-- The poller has returned `timed out` after `k` status queries. -/
def TimedOutAfter (j : Str) (sent : List Request) (k : Nat) (s : Poller) : Prop :=
  s.phase = Phase.timedOut ∧ s.ticks = k
    ∧ s.sent = sent ++ List.replicate k (jobRequest j)

/-- The stages of `Exec` before the pass/fail test succeed and the quality-gate
response decodes to status `s`: the properties file is written, the scan gives
a job handle, the polling returns `true`, the quality-gate request is answered
and the answer decodes. -/
def StagesSucceed (w : World) (fuel : Nat) (p : Plugin) (s : Str) : Prop :=
  ∃ j body, buildScannerProperties w p = Except.ok none
    ∧ staticScan w = Except.ok j
    ∧ (waitForSonarJob w [] j fuel).phase = Phase.succeeded
    ∧ (getStatus w (waitForSonarJob w [] j fuel).sent p.Host
        (normalizedKey p.Key ++ (":".toList ++ p.Branch))).2 = some (Except.ok body)
    ∧ checkStatus w body = Except.ok s

/-- A task with the given status and the other fields empty. -/
def taskWith (status : Str) : Task :=
  { ID := [], Type_ := [], ComponentID := [], ComponentKey := [], ComponentName := [],
    ComponentQualifier := [], AnalysisID := [], Status := status, SubmittedAt := [],
    SubmitterLogin := [], StartedAt := [], ExecutedAt := [], ExecutionTimeMs := 0,
    Logs := false, HasScannerContext := false, Organization := [] }

/-- A world for examples: the scanner prints a job URL, every status query is
answered at once with task status `job`, the quality gate answers with status
`gate`, and `select` takes the deadline when both channels are ready. -/
def sampleWorld (job gate : Str) : World :=
  { parseFiles := true
    create := true
    executeTemplate := fun _ => true
    scanner := some "INFO: More at http://sonar.local/api/ce/task?id=AV1\n".toList
    httpDo := fun _ _ => Reply.body []
    latency := fun _ => 0
    unmarshalJobStatus := fun _ => some ⟨taskWith job⟩
    unmarshalResponse := fun _ => some ⟨⟨gate, [], [], false⟩⟩
    pickTick := fun _ => false }

/-- The world of `sampleWorld` with every answer taking 510 ms and `select`
taking the tick the first two times both channels are ready (with 9 and with
10 ticks received). -/
def slowWorld (job gate : Str) : World :=
  { sampleWorld job gate with
    latency := fun _ => 510
    pickTick := fun n => decide (n < 11) }

/-- The text `\x7b"task":\x7b"status":"`, the beginning of a job-status
body. -/
def taskOpen : Str := "\x7b\x22task\x22:\x7b\x22status\x22:\x22".toList

/-- The text `"\x7d\x7d`, the end of a job-status body. -/
def taskClose : Str := "\x22\x7d\x7d".toList

/-- A decoder for the bodies `\x7b"task":\x7b"status":"WORD"\x7d\x7d` with
`WORD` made of letters, digits and `_`: on such a body it gives the task with
status `WORD`, as `json.Unmarshal` does; every other body is an error. -/
def decodeTask (b : Str) : Option JobStatus :=
  if taskOpen.isPrefixOf b then
    let rest := b.drop taskOpen.length
    let word := rest.takeWhile fun c => c.isAlphanum || c == '_'
    if rest.drop word.length = taskClose then some ⟨taskWith word⟩ else none
  else none

/-- The world of `sampleWorld` with a server that answers the status query
number `n` with task status `status n`, as a body for `decodeTask`, each
answer taking 120 ms. -/
def jsonWorld (status : Nat → Str) : World :=
  { sampleWorld [] "OK".toList with
    httpDo := fun n _ => Reply.body (taskOpen ++ status n ++ taskClose)
    latency := fun _ => 120
    unmarshalJobStatus := decodeTask }

/-- A plugin for examples: host `http://sonar.local`, key `org/repo`, branch
`main`, and the given expected quality-gate value. -/
def samplePlugin (quality : Str) : Plugin :=
  { Host := "http://sonar.local".toList, Token := [], Key := "org/repo".toList,
    Name := [], Version := [], Sources := [], Inclusions := [], Exclusions := [],
    Language := [], Profile := [], Encoding := "UTF-8".toList, Remote := [],
    Branch := "main".toList, Quality := quality }

/-- The words of a text (its maximal runs without white space) that start
with `http://` or `https://` and go on to contain `/api/ce/task?id=`: the
job-status URLs a reader finds in the text. -/
def jobUrlWords (outs : Str) : List Str :=
  (outs.splitOnP Char.isWhitespace).filter fun w => decide (StartsJob w)

end Sonar

namespace Sonar

/-! ## Lemmas on the pattern matcher -/

theorem line_nil : line [] = [] := rfl

theorem line_cons_dot {x : Char} (s : Str) (h : dot x = true) :
    line (x :: s) = x :: line s := by
  simp [line, List.takeWhile_cons, h]

theorem line_cons_newline {x : Char} (s : Str) (h : dot x = false) :
    line (x :: s) = [] := by
  simp [line, List.takeWhile_cons, h]

theorem line_append_of_dot (w s : Str) (hw : ∀ c ∈ w, dot c = true) :
    line (w ++ s) = w ++ line s := by
  induction w with
  | nil => rfl
  | cons c w ih =>
    have hc : dot c = true := hw c (List.mem_cons_self c w)
    have hw2 : ∀ d ∈ w, dot d = true := fun d hd => hw d (List.mem_cons_of_mem c hd)
    rw [List.cons_append, line_cons_dot _ hc, ih hw2, List.cons_append]

theorem line_initial (s : Str) : line s <+: s := List.takeWhile_prefix _

theorem dot_of_mem_line {s : Str} {c : Char} (h : c ∈ line s) : dot c = true :=
  List.mem_takeWhile_imp h

theorem newline_not_mem_line (s : Str) : '\n' ∉ line s := by
  intro h
  have := dot_of_mem_line h
  simp [dot] at this

/-- A text without newline is a prefix of `s` exactly when it is a prefix of
the first line of `s`. -/
theorem prefix_line_iff (w s : Str) (hw : ∀ c ∈ w, dot c = true) :
    w <+: line s ↔ w <+: s := by
  constructor
  · intro h
    exact h.trans (line_initial s)
  · rintro ⟨t, rfl⟩
    rw [line_append_of_dot w t hw]
    exact List.prefix_append w (line t)

theorem matchHere_nil (s : Str) : matchHere [] s = some [] := rfl

theorem matchHere_lit_nil (c : Char) (p : List Item) :
    matchHere (Item.lit c :: p) [] = none := rfl

theorem matchHere_lit_cons (c : Char) (p : List Item) (x : Char) (s : Str) :
    matchHere (Item.lit c :: p) (x :: s)
      = if x = c then (matchHere p s).map (x :: ·) else none := rfl

theorem matchHere_opt_nil (c : Char) (p : List Item) :
    matchHere (Item.opt c :: p) [] = matchHere p [] := rfl

theorem matchHere_opt_cons (c : Char) (p : List Item) (x : Char) (s : Str) :
    matchHere (Item.opt c :: p) (x :: s)
      = if x = c then
          match matchHere p s with
          | some m => some (x :: m)
          | none => matchHere p (x :: s)
        else matchHere p (x :: s) := rfl

theorem matchHere_anyStar (p : List Item) (s : Str) :
    matchHere (Item.anyStar :: p) s = matchStar (matchHere p) s := rfl

theorem matchStar_nil (k : Str → Option Str) : matchStar k [] = k [] := rfl

theorem matchStar_cons_dot (k : Str → Option Str) {x : Char} (s : Str)
    (h : dot x = true) :
    matchStar k (x :: s)
      = match matchStar k s with
        | some m => some (x :: m)
        | none => k (x :: s) := by
  simp [matchStar, h]

theorem matchStar_cons_newline (k : Str → Option Str) {x : Char} (s : Str)
    (h : dot x = false) : matchStar k (x :: s) = k (x :: s) := by
  simp [matchStar, h]

theorem matchHere_lits_append (w : Str) (p : List Item) (s : Str) :
    matchHere (lits w ++ p) (w ++ s) = (matchHere p s).map (w ++ ·) := by
  induction w with
  | nil => simp [lits]
  | cons c w ih =>
    have e : lits (c :: w) ++ p = Item.lit c :: (lits w ++ p) := rfl
    rw [e, List.cons_append, matchHere_lit_cons, if_pos rfl, ih]
    cases matchHere p s <;> rfl

theorem matchHere_lits_some (w : Str) (p : List Item) (s m : Str)
    (h : matchHere (lits w ++ p) s = some m) :
    ∃ s' m', s = w ++ s' ∧ matchHere p s' = some m' ∧ m = w ++ m' := by
  induction w generalizing s m with
  | nil => exact ⟨s, m, rfl, by simpa [lits] using h, rfl⟩
  | cons c w ih =>
    have e : lits (c :: w) ++ p = Item.lit c :: (lits w ++ p) := rfl
    rw [e] at h
    cases s with
    | nil => rw [matchHere_lit_nil] at h; exact Option.noConfusion h
    | cons x s =>
      rw [matchHere_lit_cons] at h
      by_cases hx : x = c
      · subst hx
        rw [if_pos rfl, Option.map_eq_some'] at h
        obtain ⟨m1, hm1, rfl⟩ := h
        obtain ⟨s', m', rfl, hm', rfl⟩ := ih s m1 hm1
        exact ⟨s', m', rfl, hm', rfl⟩
      · rw [if_neg hx] at h
        exact Option.noConfusion h

theorem matchHere_lits_iff (w : Str) (p : List Item) (s m : Str) :
    matchHere (lits w ++ p) s = some m ↔
      ∃ s' m', s = w ++ s' ∧ matchHere p s' = some m' ∧ m = w ++ m' := by
  constructor
  · exact matchHere_lits_some w p s m
  · rintro ⟨s', m', rfl, hm', rfl⟩
    rw [matchHere_lits_append, hm']
    rfl

theorem matchStar_end (s : Str) : matchStar (matchHere []) s = some (line s) := by
  induction s with
  | nil => rfl
  | cons x s ih =>
    by_cases hx : dot x = true
    · rw [matchStar_cons_dot _ _ hx, ih, line_cons_dot _ hx]
    · simp only [Bool.not_eq_true] at hx
      rw [matchStar_cons_newline _ _ hx, line_cons_newline _ hx, matchHere_nil]

/-- A literal text followed by a final `.*`: it matches when the text is a
prefix of the input, and then takes the whole first line. -/
theorem matchHere_lits_star_iff (w : Str) (hw : ∀ c ∈ w, dot c = true) (s m : Str) :
    matchHere (lits w ++ [Item.anyStar]) s = some m ↔ w <+: line s ∧ m = line s := by
  rw [matchHere_lits_iff, prefix_line_iff w s hw]
  constructor
  · rintro ⟨s', m', rfl, hm', rfl⟩
    rw [matchHere_anyStar, matchStar_end, Option.some.injEq] at hm'
    subst hm'
    exact ⟨List.prefix_append w s', (line_append_of_dot w s' hw).symm⟩
  · rintro ⟨⟨t, rfl⟩, rfl⟩
    exact ⟨t, line t, rfl, by rw [matchHere_anyStar, matchStar_end],
      line_append_of_dot w t hw⟩

/-- The part `.*w.*` of a pattern, for a literal text `w` without newline: it
matches when `w` occurs in the first line of the input and then takes the
whole first line. -/
theorem matchStar_lits_star_iff (w : Str) (hw : ∀ c ∈ w, dot c = true) (s m : Str) :
    matchStar (matchHere (lits w ++ [Item.anyStar])) s = some m ↔
      w <:+: line s ∧ m = line s := by
  induction s generalizing m with
  | nil =>
    rw [matchStar_nil, matchHere_lits_star_iff w hw, line_nil]
    simp [List.prefix_nil, List.infix_nil]
  | cons x s ih =>
    by_cases hx : dot x = true
    · rw [matchStar_cons_dot _ _ hx, line_cons_dot s hx, List.infix_cons_iff]
      cases hrec : matchStar (matchHere (lits w ++ [Item.anyStar])) s with
      | some m1 =>
        have h1 := (ih m1).1 hrec
        simp only [Option.some.injEq]
        constructor
        · rintro rfl
          exact ⟨Or.inr h1.1, by rw [h1.2]⟩
        · rintro ⟨-, rfl⟩
          rw [h1.2]
      | none =>
        have h1 : ¬ w <:+: line s := fun hc => by
          have := (ih (line s)).2 ⟨hc, rfl⟩
          rw [hrec] at this
          exact Option.noConfusion this
        simp only [matchHere_lits_star_iff w hw, line_cons_dot s hx]
        constructor
        · rintro ⟨hp, rfl⟩
          exact ⟨Or.inl hp, rfl⟩
        · rintro ⟨hp | hp, rfl⟩
          · exact ⟨hp, rfl⟩
          · exact absurd hp h1
    · simp only [Bool.not_eq_true] at hx
      rw [matchStar_cons_newline _ _ hx, matchHere_lits_star_iff w hw,
        line_cons_newline s hx]
      simp [List.prefix_nil, List.infix_nil]

theorem dot_iff (c : Char) : dot c = true ↔ c ≠ '\n' := by
  simp [dot]

theorem all_dot_iff (w : Str) : (∀ c ∈ w, dot c = true) ↔ '\n' ∉ w := by
  constructor
  · intro h hm
    have := h _ hm
    simp [dot] at this
  · intro h c hc
    rw [dot_iff]
    rintro rfl
    exact h hc

theorem taskPath_dot : ∀ c ∈ taskPath, dot c = true := by decide

theorem http_dot : ∀ c ∈ http, dot c = true := by decide

theorem https_dot : ∀ c ∈ https, dot c = true := by decide

/-- The tail `:\/\/.*\/api\/ce\/task\?id=.*` of the pattern. -/
theorem matchHere_tail_iff (s m : Str) :
    matchHere (lits "://".toList ++ [Item.anyStar] ++ lits taskPath ++ [Item.anyStar]) s = some m ↔
      ∃ rest, s = "://".toList ++ rest ∧ taskPath <:+: line rest
        ∧ m = "://".toList ++ line rest := by
  rw [List.append_assoc, List.append_assoc, matchHere_lits_iff]
  constructor
  · rintro ⟨s', m', rfl, hm', rfl⟩
    rw [List.singleton_append, matchHere_anyStar,
      matchStar_lits_star_iff taskPath taskPath_dot] at hm'
    exact ⟨s', rfl, hm'.1, by rw [hm'.2]⟩
  · rintro ⟨rest, rfl, hin, rfl⟩
    refine ⟨rest, line rest, rfl, ?_, rfl⟩
    rw [List.singleton_append, matchHere_anyStar,
      matchStar_lits_star_iff taskPath taskPath_dot]
    exact ⟨hin, rfl⟩

theorem matchHere_tail_s (s : Str) :
    matchHere (lits "://".toList ++ [Item.anyStar] ++ lits taskPath ++ [Item.anyStar])
      ('s' :: s) = none := rfl

/-- The pattern of `parseOutput` matches at the beginning of a text exactly
when the text starts a job URL, and then takes the whole first line. -/
theorem matchHere_jobId_iff (s m : Str) :
    matchHere jobId s = some m ↔ StartsJob s ∧ m = line s := by
  have e : jobId = lits "http".toList ++ (Item.opt 's' ::
      (lits "://".toList ++ [Item.anyStar] ++ lits taskPath ++ [Item.anyStar])) := by
    simp [jobId]
  rw [e, matchHere_lits_iff]
  constructor
  · rintro ⟨s', m', rfl, hm', rfl⟩
    cases s' with
    | nil =>
      rw [matchHere_opt_nil, matchHere_tail_iff] at hm'
      obtain ⟨rest, h, -⟩ := hm'
      simp at h
    | cons x t =>
      rw [matchHere_opt_cons] at hm'
      by_cases hx : x = 's'
      · subst hx
        rw [if_pos rfl, matchHere_tail_s] at hm'
        cases hrec : matchHere (lits "://".toList ++ [Item.anyStar] ++ lits taskPath
            ++ [Item.anyStar]) t with
        | none => rw [hrec] at hm'; exact Option.noConfusion hm'
        | some m1 =>
          rw [hrec] at hm'
          obtain ⟨rest, rfl, hin, rfl⟩ := (matchHere_tail_iff t m1).1 hrec
          simp only [Option.some.injEq] at hm'
          subst hm'
          refine ⟨Or.inr ⟨⟨rest, rfl⟩, ?_⟩, ?_⟩
          · simpa [https] using hin
          · have := line_append_of_dot https rest https_dot
            simpa [https] using this.symm
      · rw [if_neg hx] at hm'
        obtain ⟨rest, hrest, hin, rfl⟩ := (matchHere_tail_iff (x :: t) m').1 hm'
        rw [hrest]
        refine ⟨Or.inl ⟨⟨rest, rfl⟩, ?_⟩, ?_⟩
        · simpa [http] using hin
        · have := line_append_of_dot http rest http_dot
          simpa [http] using this.symm
  · rintro ⟨h | h, rfl⟩
    · obtain ⟨⟨rest, rfl⟩, hin⟩ := h
      refine ⟨"://".toList ++ rest, "://".toList ++ line rest, rfl, ?_, ?_⟩
      · have : matchHere (Item.opt 's' :: (lits "://".toList ++ [Item.anyStar]
            ++ lits taskPath ++ [Item.anyStar])) (':' :: ("//".toList ++ rest))
            = matchHere (lits "://".toList ++ [Item.anyStar]
            ++ lits taskPath ++ [Item.anyStar]) (':' :: ("//".toList ++ rest)) := by
          rw [matchHere_opt_cons, if_neg (by decide)]
        refine this.trans ((matchHere_tail_iff _ _).2 ⟨rest, rfl, ?_, rfl⟩)
        simpa [http] using hin
      · have := line_append_of_dot http rest http_dot
        simpa [http] using this
    · obtain ⟨⟨rest, rfl⟩, hin⟩ := h
      have hin' : taskPath <:+: line rest := by simpa [https] using hin
      refine ⟨'s' :: ("://".toList ++ rest), 's' :: ("://".toList ++ line rest), rfl, ?_, ?_⟩
      · rw [matchHere_opt_cons, if_pos rfl,
          (matchHere_tail_iff _ _).2 ⟨rest, rfl, hin', rfl⟩]
      · have := line_append_of_dot https rest https_dot
        simpa [https] using this

theorem matchHere_jobId_none_iff (s : Str) :
    matchHere jobId s = none ↔ ¬ StartsJob s := by
  constructor
  · intro h hs
    have := (matchHere_jobId_iff s (line s)).2 ⟨hs, rfl⟩
    rw [h] at this
    exact Option.noConfusion this
  · intro h
    cases hm : matchHere jobId s with
    | none => rfl
    | some m => exact absurd ((matchHere_jobId_iff s m).1 hm).1 h

/-- The search returns the match at the first position where there is one. -/
theorem FindStringSubmatch_some_iff (p : List Item) (s m : Str) :
    FindStringSubmatch p s = some m ↔
      ∃ i, i ≤ s.length ∧ matchHere p (s.drop i) = some m
        ∧ ∀ j, j < i → matchHere p (s.drop j) = none := by
  induction s with
  | nil =>
    constructor
    · intro h
      exact ⟨0, Nat.le_refl _, h, fun j hj => absurd hj (Nat.not_lt_zero j)⟩
    · rintro ⟨i, hi, hm, -⟩
      have : i = 0 := Nat.le_zero.1 hi
      subst this
      exact hm
  | cons x s ih =>
    cases h0 : matchHere p (x :: s) with
    | some m0 =>
      have e : FindStringSubmatch p (x :: s) = some m0 := by
        simp only [FindStringSubmatch, h0]
      rw [e]
      constructor
      · intro h
        exact ⟨0, Nat.zero_le _, by rw [List.drop_zero, h0, h],
          fun j hj => absurd hj (Nat.not_lt_zero j)⟩
      · rintro ⟨i, -, hm, hnone⟩
        cases i with
        | zero => rw [List.drop_zero, h0] at hm; exact hm
        | succ i =>
          have := hnone 0 (Nat.succ_pos i)
          rw [List.drop_zero, h0] at this
          exact Option.noConfusion this
    | none =>
      have e : FindStringSubmatch p (x :: s) = FindStringSubmatch p s := by
        simp only [FindStringSubmatch, h0]
      rw [e, ih]
      constructor
      · rintro ⟨i, hi, hm, hnone⟩
        refine ⟨i + 1, Nat.succ_le_succ hi, hm, ?_⟩
        intro j hj
        cases j with
        | zero => exact h0
        | succ j => exact hnone j (Nat.lt_of_succ_lt_succ hj)
      · rintro ⟨i, hi, hm, hnone⟩
        cases i with
        | zero => rw [List.drop_zero, h0] at hm; exact Option.noConfusion hm
        | succ i =>
          exact ⟨i, Nat.le_of_succ_le_succ hi, hm,
            fun j hj => hnone (j + 1) (Nat.succ_lt_succ hj)⟩

theorem FindStringSubmatch_none_iff (p : List Item) (s : Str) :
    FindStringSubmatch p s = none ↔
      ∀ i, i ≤ s.length → matchHere p (s.drop i) = none := by
  induction s with
  | nil =>
    constructor
    · intro h i hi
      have : i = 0 := Nat.le_zero.1 hi
      subst this
      exact h
    · intro h
      exact h 0 (Nat.le_refl _)
  | cons x s ih =>
    cases h0 : matchHere p (x :: s) with
    | some m0 =>
      have e : FindStringSubmatch p (x :: s) = some m0 := by
        simp only [FindStringSubmatch, h0]
      rw [e]
      constructor
      · intro h; exact Option.noConfusion h
      · intro h
        have := h 0 (Nat.zero_le _)
        rw [List.drop_zero, h0] at this
        exact Option.noConfusion this
    | none =>
      have e : FindStringSubmatch p (x :: s) = FindStringSubmatch p s := by
        simp only [FindStringSubmatch, h0]
      rw [e, ih]
      constructor
      · intro h i hi
        cases i with
        | zero => exact h0
        | succ i => exact h i (Nat.le_of_succ_le_succ hi)
      · intro h i hi
        exact h (i + 1) (Nat.succ_le_succ hi)

/-- When `parseOutput` returns: the handle is the rest of the line from the
first position that starts a job URL. -/
theorem parseOutput_ok_iff (outs h : Str) :
    parseOutput outs = Except.ok h ↔
      ∃ i, i ≤ outs.length ∧ StartsJob (outs.drop i) ∧ h = line (outs.drop i)
        ∧ ∀ j, j < i → ¬ StartsJob (outs.drop j) := by
  have key : parseOutput outs = Except.ok h ↔ FindStringSubmatch jobId outs = some h := by
    unfold parseOutput
    cases FindStringSubmatch jobId outs with
    | none => simp
    | some m => simp
  rw [key, FindStringSubmatch_some_iff]
  constructor
  · rintro ⟨i, hi, hm, hnone⟩
    obtain ⟨hs, rfl⟩ := (matchHere_jobId_iff _ _).1 hm
    exact ⟨i, hi, hs, rfl, fun j hj => (matchHere_jobId_none_iff _).1 (hnone j hj)⟩
  · rintro ⟨i, hi, hs, rfl, hnone⟩
    exact ⟨i, hi, (matchHere_jobId_iff _ _).2 ⟨hs, rfl⟩,
      fun j hj => (matchHere_jobId_none_iff _).2 (hnone j hj)⟩

/-- When `parseOutput` panics: no position of the output starts a job URL. -/
theorem parseOutput_panic_iff (outs : Str) :
    parseOutput outs = Except.error indexOutOfRange ↔
      ∀ i, i ≤ outs.length → ¬ StartsJob (outs.drop i) := by
  have key : parseOutput outs = Except.error indexOutOfRange
      ↔ FindStringSubmatch jobId outs = none := by
    unfold parseOutput
    cases FindStringSubmatch jobId outs with
    | none => simp
    | some m => simp
  rw [key, FindStringSubmatch_none_iff]
  exact forall_congr' fun i => imp_congr_right fun _ => matchHere_jobId_none_iff _

/-- A text of the job URL shape, followed by anything, starts a job URL, and
the first line of the whole is that text and the first line of what follows. -/
theorem IsJobUrl.startsJob {u : Str} (hu : IsJobUrl u) (t : Str) :
    StartsJob (u ++ t) ∧ line (u ++ t) = u ++ line t := by
  obtain ⟨mid, tail, hshape, hnl⟩ := hu
  have hline : line (u ++ t) = u ++ line t :=
    line_append_of_dot u t ((all_dot_iff u).2 hnl)
  refine ⟨?_, hline⟩
  rcases hshape with rfl | rfl
  · left
    refine ⟨⟨mid ++ taskPath ++ tail ++ t, by simp⟩, ?_⟩
    have hnl2 : '\n' ∉ mid ++ taskPath ++ tail := by
      intro hc
      apply hnl
      simp only [List.mem_append] at hc ⊢
      tauto
    have e : List.drop http.length (http ++ mid ++ taskPath ++ tail ++ t)
        = (mid ++ taskPath ++ tail) ++ t := by
      simp [List.append_assoc]
    rw [e, line_append_of_dot _ t ((all_dot_iff _).2 hnl2)]
    exact ⟨mid, tail ++ line t, by simp [List.append_assoc]⟩
  · right
    refine ⟨⟨mid ++ taskPath ++ tail ++ t, by simp⟩, ?_⟩
    have hnl2 : '\n' ∉ mid ++ taskPath ++ tail := by
      intro hc
      apply hnl
      simp only [List.mem_append] at hc ⊢
      tauto
    have e : List.drop https.length (https ++ mid ++ taskPath ++ tail ++ t)
        = (mid ++ taskPath ++ tail) ++ t := by
      simp [List.append_assoc]
    rw [e, line_append_of_dot _ t ((all_dot_iff _).2 hnl2)]
    exact ⟨mid, tail ++ line t, by simp [List.append_assoc]⟩

/-- The first line of a text that starts a job URL has the job URL shape. -/
theorem StartsJob.isJobUrl_line {s : Str} (hs : StartsJob s) : IsJobUrl (line s) := by
  rcases hs with ⟨⟨rest, rfl⟩, hin⟩ | ⟨⟨rest, rfl⟩, hin⟩
  · rw [List.drop_left] at hin
    obtain ⟨mid, tail, e⟩ := hin
    refine ⟨mid, tail, Or.inl ?_, newline_not_mem_line _⟩
    rw [line_append_of_dot http rest http_dot, ← e]
    simp [List.append_assoc]
  · rw [List.drop_left] at hin
    obtain ⟨mid, tail, e⟩ := hin
    refine ⟨mid, tail, Or.inr ?_, newline_not_mem_line _⟩
    rw [line_append_of_dot https rest https_dot, ← e]
    simp [List.append_assoc]

theorem line_split (s : Str) :
    ∃ post, s = line s ++ post ∧ (post = [] ∨ ∃ t, post = '\n' :: t) := by
  refine ⟨s.dropWhile dot, (List.takeWhile_append_dropWhile dot s).symm, ?_⟩
  cases h : s.dropWhile dot with
  | nil => exact Or.inl rfl
  | cons x t =>
    right
    have hx : ¬ dot x = true := by
      have := List.head_dropWhile_not dot s (by rw [h]; exact List.cons_ne_nil x t)
      simpa [h] using this
    have : x = '\n' := by
      by_contra hne
      exact hx ((dot_iff x).2 hne)
    exact ⟨t, by rw [this]⟩

theorem line_eq_nil_of_post {post : Str} (h : post = [] ∨ ∃ t, post = '\n' :: t) :
    line post = [] := by
  rcases h with rfl | ⟨t, rfl⟩
  · rfl
  · exact line_cons_newline t (by decide)

theorem IsJobUrl.length_le {u : Str} (hu : IsJobUrl u) : https.length ≤ u.length := by
  obtain ⟨mid, tail, h | h, -⟩ := hu <;>
  · rw [h]
    simp only [List.length_append]
    have h1 : http.length = 7 := rfl
    have h2 : https.length = 8 := rfl
    have h3 : taskPath.length = 16 := rfl
    omega

/-- A job URL stays one when text of its line is put before it so that the
whole starts with `http://` or `https://` again. -/
theorem IsJobUrl.extend_left {b u : Str} (hu : IsJobUrl u) (hb : '\n' ∉ b)
    (hp : http <+: b ++ u ∨ https <+: b ++ u) (hb0 : b ≠ []) : IsJobUrl (b ++ u) := by
  obtain ⟨mid, tail, hshape, hnl⟩ := hu
  have hnl' : '\n' ∉ b ++ u := by
    simp only [List.mem_append, not_or]
    exact ⟨hb, hnl⟩
  have hblen : 1 ≤ b.length := List.length_pos.2 hb0
  have h1 : http.length = 7 := rfl
  have h2 : https.length = 8 := rfl
  obtain ⟨sch, hsch, hu2, hlen⟩ : ∃ sch : Str, (sch = http ∨ sch = https)
      ∧ u = sch ++ mid ++ taskPath ++ tail ∧ 7 ≤ sch.length := by
    rcases hshape with h | h
    · exact ⟨http, Or.inl rfl, h, by decide⟩
    · exact ⟨https, Or.inr rfl, h, by decide⟩
  have hsplit : b ++ u = (b ++ sch ++ mid) ++ (taskPath ++ tail) := by
    rw [hu2]; simp [List.append_assoc]
  have hpre : b ++ sch ++ mid <+: b ++ u := by
    rw [hsplit]; exact List.prefix_append _ _
  have hl : https.length ≤ (b ++ sch ++ mid).length := by
    simp only [List.length_append]; omega
  rcases hp with hp | hp
  · have hp2 : http <+: b ++ sch ++ mid :=
      List.prefix_of_prefix_length_le hp hpre (by simp only [List.length_append]; omega)
    obtain ⟨mid', hmid'⟩ := hp2
    exact ⟨mid', tail, Or.inl (by rw [hsplit, ← hmid']; simp [List.append_assoc]), hnl'⟩
  · have hp2 : https <+: b ++ sch ++ mid := List.prefix_of_prefix_length_le hp hpre hl
    obtain ⟨mid', hmid'⟩ := hp2
    exact ⟨mid', tail, Or.inr (by rw [hsplit, ← hmid']; simp [List.append_assoc]), hnl'⟩

/-! ## Theorems on `parseOutput` -/

/-- C1, as stated, fails: the output `see http://h/api/ce/task?id=A for details`
holds exactly one job-status URL, `http://h/api/ce/task?id=A`, and
`parseOutput` returns that URL together with the text after it on the line. -/
theorem parseOutput_keeps_rest_of_line :
    jobUrlWords "see http://h/api/ce/task?id=A for details".toList
        = ["http://h/api/ce/task?id=A".toList]
      ∧ parseOutput "see http://h/api/ce/task?id=A for details".toList
        = Except.ok "http://h/api/ce/task?id=A for details".toList
      ∧ parseOutput "see http://h/api/ce/task?id=A for details".toList
        ≠ Except.ok "http://h/api/ce/task?id=A".toList := by
  decide

/-- C1, amended: when the output is `pre ++ url ++ post`, where `url` has the
shape `http(s)://.../api/ce/task?id=...` and no newline, `url` runs to the end
of its line (`post` is empty or begins with a newline), and no earlier position
of the output begins with `http://` or `https://` followed on the same line by
`/api/ce/task?id=`, then `parseOutput` returns exactly `url`. -/
theorem parseOutput_exact (pre url post : Str) (hurl : IsJobUrl url)
    (hpost : post = [] ∨ ∃ t, post = '\n' :: t)
    (hfirst : ∀ j, j < pre.length → ¬ StartsJob ((pre ++ url ++ post).drop j)) :
    parseOutput (pre ++ url ++ post) = Except.ok url := by
  rw [parseOutput_ok_iff]
  have hdrop : (pre ++ url ++ post).drop pre.length = url ++ post := by
    rw [List.append_assoc, List.drop_left]
  refine ⟨pre.length, by simp only [List.length_append]; omega, ?_, ?_, hfirst⟩
  · rw [hdrop]; exact (hurl.startsJob post).1
  · rw [hdrop, (hurl.startsJob post).2, line_eq_nil_of_post hpost, List.append_nil]

/-- Witness of `parseOutput_exact`: the last lines of a scanner run, with a
dashboard URL on an earlier line. -/
theorem parseOutput_exact_witness :
    parseOutput ("INFO: browse http://h/dashboard\nINFO: More at ".toList
        ++ "https://h:9000/api/ce/task?id=AV1x".toList ++ "\nINFO: done".toList)
      = Except.ok "https://h:9000/api/ce/task?id=AV1x".toList :=
  parseOutput_exact "INFO: browse http://h/dashboard\nINFO: More at ".toList
    "https://h:9000/api/ce/task?id=AV1x".toList "\nINFO: done".toList
    ⟨"h:9000".toList, "AV1x".toList, Or.inr (by decide), by decide⟩
    (Or.inr ⟨"INFO: done".toList, by decide⟩) (by decide)

/-- C2: on the output `INFO: EXECUTION SUCCESS`, which holds no job-status URL,
`parseOutput` ends in the run-time panic of indexing an empty result. -/
theorem parseOutput_no_url_panics :
    parseOutput "INFO: EXECUTION SUCCESS\n".toList = Except.error indexOutOfRange := by
  decide

/-- C10: a handle returned by `parseOutput` is a contiguous part of the output,
starts with `http://` or `https://`, contains `/api/ce/task?id=`, has no
newline and has the shape of the pattern; no text of that shape starts earlier
in the output and none starting at the same place is longer; it runs to the end
of its line and no earlier place on its line begins with `http://` or
`https://`. -/
theorem parseOutput_handle (outs h : Str) (hm : parseOutput outs = Except.ok h) :
    ∃ pre post, outs = pre ++ h ++ post
      ∧ (http <+: h ∨ https <+: h) ∧ taskPath <:+: h ∧ '\n' ∉ h ∧ IsJobUrl h
      ∧ (∀ pre' u post', outs = pre' ++ u ++ post' → IsJobUrl u → pre.length ≤ pre'.length)
      ∧ (∀ u post', outs = pre ++ u ++ post' → IsJobUrl u → u.length ≤ h.length)
      ∧ (post = [] ∨ ∃ t, post = '\n' :: t)
      ∧ (∀ a b, pre = a ++ b → b ≠ [] → '\n' ∉ b →
          ¬ http <+: b ++ h ++ post ∧ ¬ https <+: b ++ h ++ post) := by
  obtain ⟨i, hi, hs, rfl, hnone⟩ := (parseOutput_ok_iff outs h).1 hm
  obtain ⟨post, hsplit, hpost⟩ := line_split (outs.drop i)
  have hurl : IsJobUrl (line (outs.drop i)) := hs.isJobUrl_line
  have hlen : (outs.take i).length = i := List.length_take_of_le hi
  have houts : outs = outs.take i ++ line (outs.drop i) ++ post := by
    rw [List.append_assoc, ← hsplit, List.take_append_drop]
  have hleft : ∀ pre' u post', outs = pre' ++ u ++ post' → IsJobUrl u →
      (outs.take i).length ≤ pre'.length := by
    intro pre' u post' hdec hu
    rw [hlen]
    by_contra hlt
    apply hnone pre'.length (Nat.lt_of_not_le hlt)
    rw [hdec, List.append_assoc, List.drop_left]
    exact (hu.startsJob post').1
  refine ⟨outs.take i, post, houts, ?_, ?_, newline_not_mem_line _, hurl, hleft, ?_, hpost, ?_⟩
  · obtain ⟨mid, tail, h | h, -⟩ := hurl
    · left; rw [h]; exact ⟨mid ++ taskPath ++ tail, by simp [List.append_assoc]⟩
    · right; rw [h]; exact ⟨mid ++ taskPath ++ tail, by simp [List.append_assoc]⟩
  · obtain ⟨mid, tail, h | h, -⟩ := hurl
    · rw [h]; exact ⟨http ++ mid, tail, by simp [List.append_assoc]⟩
    · rw [h]; exact ⟨https ++ mid, tail, by simp [List.append_assoc]⟩
  · intro u post' hdec hu
    have hd : outs.drop i = u ++ post' := by
      have e : outs.take i ++ outs.drop i = outs.take i ++ (u ++ post') := by
        rw [List.take_append_drop, ← List.append_assoc]
        exact hdec
      exact List.append_cancel_left e
    obtain ⟨-, -, -, hunl⟩ := hu
    have hp : u <+: line (outs.drop i) :=
      (prefix_line_iff u _ ((all_dot_iff u).2 hunl)).2 ⟨post', hd.symm⟩
    exact hp.length_le
  · intro a b hab hb0 hbnl
    have hdec : outs = a ++ (b ++ line (outs.drop i)) ++ post :=
      calc outs = outs.take i ++ line (outs.drop i) ++ post := houts
        _ = a ++ (b ++ line (outs.drop i)) ++ post := by
          rw [hab]; simp only [List.append_assoc]
    have hlong : https.length ≤ (b ++ line (outs.drop i)).length := by
      have := hurl.length_le
      simp only [List.length_append]; omega
    have hshort : http.length ≤ (b ++ line (outs.drop i)).length :=
      Nat.le_trans (by decide) hlong
    have hinit : b ++ line (outs.drop i) <+: b ++ line (outs.drop i) ++ post :=
      List.prefix_append _ _
    have habs : ¬ IsJobUrl (b ++ line (outs.drop i)) := by
      intro hu
      have := hleft a _ post hdec hu
      rw [hab, List.length_append] at this
      have : 1 ≤ b.length := List.length_pos.2 hb0
      omega
    constructor
    · intro hp
      exact habs (hurl.extend_left hbnl
        (Or.inl (List.prefix_of_prefix_length_le hp hinit hshort)) hb0)
    · intro hp
      exact habs (hurl.extend_left hbnl
        (Or.inr (List.prefix_of_prefix_length_le hp hinit hlong)) hb0)

/-- Witness of `parseOutput_handle`. -/
theorem parseOutput_handle_witness :
    ∃ pre post, "a http://x\nb http://h/api/ce/task?id=7 c\nd".toList
        = pre ++ "http://h/api/ce/task?id=7 c".toList ++ post
      ∧ (http <+: "http://h/api/ce/task?id=7 c".toList
          ∨ https <+: "http://h/api/ce/task?id=7 c".toList)
      ∧ taskPath <:+: "http://h/api/ce/task?id=7 c".toList
      ∧ '\n' ∉ "http://h/api/ce/task?id=7 c".toList
      ∧ IsJobUrl "http://h/api/ce/task?id=7 c".toList
      ∧ (∀ pre' u post', "a http://x\nb http://h/api/ce/task?id=7 c\nd".toList
          = pre' ++ u ++ post' → IsJobUrl u → pre.length ≤ pre'.length)
      ∧ (∀ u post', "a http://x\nb http://h/api/ce/task?id=7 c\nd".toList
          = pre ++ u ++ post' → IsJobUrl u
          → u.length ≤ "http://h/api/ce/task?id=7 c".toList.length)
      ∧ (post = [] ∨ ∃ t, post = '\n' :: t)
      ∧ (∀ a b, pre = a ++ b → b ≠ [] → '\n' ∉ b →
          ¬ http <+: b ++ "http://h/api/ce/task?id=7 c".toList ++ post
          ∧ ¬ https <+: b ++ "http://h/api/ce/task?id=7 c".toList ++ post) :=
  parseOutput_handle "a http://x\nb http://h/api/ce/task?id=7 c\nd".toList
    "http://h/api/ce/task?id=7 c".toList (by decide)

/-! ## The project key -/

theorem replaceFrom_slash (s : Str) :
    replaceFrom "/".toList ":".toList 0 s = s.map fun c => if c = '/' then ':' else c := by
  induction s with
  | nil => rfl
  | cons c s ih =>
    by_cases hc : c = '/'
    · subst hc
      have hp : List.isPrefixOf "/".toList ('/' :: s) = true := by
        show (('/' == '/') && List.isPrefixOf [] s) = true
        cases s <;> rfl
      rw [replaceFrom, if_pos hp, List.map_cons, if_pos rfl]
      show ':' :: replaceFrom "/".toList ":".toList 0 s = _
      rw [ih]
    · have hne : ('/' == c) = false := by
        simp only [beq_eq_false_iff_ne, ne_eq]
        exact fun h => hc h.symm
      have hp : ¬ List.isPrefixOf "/".toList (c :: s) = true := by
        show ¬ (('/' == c) && List.isPrefixOf [] s) = true
        rw [hne]; exact Bool.false_ne_true
      rw [replaceFrom, if_neg hp, List.map_cons, if_neg hc, ih]

theorem normalizedKey_eq_map (key : Str) :
    normalizedKey key = key.map fun c => if c = '/' then ':' else c :=
  replaceFrom_slash key

/-- C8: replacing every `/` of a key by `:` leaves a key without `/` as it is,
is idempotent, yields a key without `/`, and maps `org/repo` to `org:repo`. -/
theorem normalizedKey_props :
    (∀ key : Str, '/' ∉ key → normalizedKey key = key)
      ∧ (∀ key : Str, normalizedKey (normalizedKey key) = normalizedKey key)
      ∧ (∀ key : Str, '/' ∉ normalizedKey key)
      ∧ normalizedKey "org/repo".toList = "org:repo".toList := by
  refine ⟨?_, ?_, ?_, by decide⟩
  · intro key h
    rw [normalizedKey_eq_map]
    induction key with
    | nil => rfl
    | cons c key ih =>
      have hc : c ≠ '/' := fun e => h (by rw [e]; exact List.mem_cons_self _ _)
      rw [List.map_cons, if_neg hc, ih (fun hm => h (List.mem_cons_of_mem _ hm))]
  · intro key
    rw [normalizedKey_eq_map, normalizedKey_eq_map, List.map_map]
    apply List.map_congr_left
    intro c _
    by_cases hc : c = '/'
    · simp [hc]
    · simp [hc]
  · intro key
    rw [normalizedKey_eq_map, List.mem_map]
    rintro ⟨c, -, hc⟩
    by_cases h : c = '/'
    · rw [if_pos h] at hc
      exact absurd hc (by decide)
    · rw [if_neg h] at hc
      exact h hc

/-- Witness of `normalizedKey_props`: a key without `/` is left as it is. -/
theorem normalizedKey_props_witness :
    normalizedKey "org:repo".toList = "org:repo".toList :=
  normalizedKey_props.1 "org:repo".toList (by decide)

/-! ## The polling loop -/

/-- A tick whose status query is answered and decoded: the query is added to
the requests, the clock moves to the receive of the tick and on by the latency
of the answer, and the poller has succeeded or goes on waiting. -/
theorem pollStep_tick (w : World) (j : Str) (s : Poller) (b status : Str)
    (hphase : s.phase = Phase.waiting) (hsel : (select w s).1 = Event.tick)
    (hreply : w.httpDo s.sent.length (jobRequest j) = Reply.body b)
    (hst : checkSonarJobStatus w b = Except.ok status) :
    pollStep w j s
      = ⟨if status = "SUCCESS".toList then Phase.succeeded else Phase.waiting, s.ticks + 1,
          s.sent ++ [jobRequest j], (select w s).2 + w.latency s.sent.length,
          (select w s).2⟩ := by
  obtain ⟨phase, k, sent, now, taken⟩ := s
  simp only at hphase hreply
  subst hphase
  rcases hse : select w ⟨Phase.waiting, k, sent, now, taken⟩ with ⟨e, t⟩
  rw [hse] at hsel
  simp only at hsel
  subst hsel
  simp only [pollStep, hse, getSonarJobStatus, hreply, hst]
  split <;> rfl

theorem pollStep_timeout (w : World) (j : Str) (s : Poller)
    (hphase : s.phase = Phase.waiting) (hsel : (select w s).1 = Event.timeout) :
    pollStep w j s = { s with phase := Phase.timedOut, now := (select w s).2 } := by
  obtain ⟨phase, k, sent, now, taken⟩ := s
  simp only at hphase
  subst hphase
  rcases hse : select w ⟨Phase.waiting, k, sent, now, taken⟩ with ⟨e, t⟩
  rw [hse] at hsel
  simp only at hsel
  subst hsel
  simp only [pollStep, hse]

theorem pollStep_returned (w : World) (j : Str) (s : Poller) (h : s.phase ≠ Phase.waiting) :
    pollStep w j s = s := by
  obtain ⟨phase, k, sent, now, taken⟩ := s
  cases phase with
  | waiting => exact absurd rfl h
  | succeeded => rfl
  | timedOut => rfl
  | exited f => rfl
  | blocked => rfl

theorem pollLoop_returned (w : World) (j : Str) (n : Nat) (s : Poller)
    (h : s.phase ≠ Phase.waiting) : pollLoop w j n s = s := by
  induction n with
  | zero => rfl
  | succ n ih => rw [pollLoop, pollStep_returned w j s h, ih]

theorem pollLoop_add (w : World) (j : Str) (a b : Nat) (s : Poller) :
    pollLoop w j (a + b) s = pollLoop w j b (pollLoop w j a s) := by
  induction a generalizing s with
  | zero => rw [Nat.zero_add]; rfl
  | succ a ih => rw [Nat.succ_add, pollLoop, pollLoop, ih]

/-- The `select` of a poller whose last tick was taken when it fired, at
`tickMs * k`, and for which the next tick is not yet due: before the ninth
tick it sleeps until the next tick; after the ninth the tenth tick and the
deadline fall together; after the tenth the deadline has passed and no tick
is waiting. -/
theorem select_of_onTime (w : World) (s : Poller) (k : Nat) (htaken : s.taken = tickMs * k)
    (hlo : tickMs * k ≤ s.now) (hhi : s.now < tickMs * (k + 1)) :
    select w s =
      if k < 9 then (Event.tick, tickMs * (k + 1))
      else if k = 9 then
        (if w.pickTick s.ticks then Event.tick else Event.timeout, timeoutMs)
      else (Event.timeout, s.now) := by
  have ht : tickMs = 500 := rfl
  have hd : timeoutMs = 5000 := rfl
  rw [ht] at htaken hlo hhi
  have hq1 : s.taken / 500 = k := by omega
  have hq2 : s.now / 500 = k := by omega
  have hready : tickReady s = false := by
    simp only [tickReady, ht, hq1, hq2, Nat.lt_irrefl, decide_False]
  have hnext : nextTick s = 500 * (k + 1) := by
    simp only [nextTick, ht, hq2]; omega
  by_cases h9 : k < 9
  · have hnd : ¬ 5000 ≤ s.now := by omega
    have hlt : 500 * (k + 1) < 5000 := by omega
    simp only [select, hready, deadlineReady, hnext, ht, hd, decide_eq_true_eq,
      Bool.false_and, Bool.false_eq_true, if_false, if_neg hnd, if_pos hlt, if_pos h9]
  · by_cases h10 : k = 9
    · have hnd : ¬ 5000 ≤ s.now := by omega
      have hlt : ¬ 500 * (k + 1) < 5000 := by omega
      have hgt : ¬ 5000 < 500 * (k + 1) := by omega
      simp only [select, hready, deadlineReady, hnext, ht, hd, decide_eq_true_eq,
        Bool.false_and, Bool.false_eq_true, if_false, if_neg hnd, if_neg hlt, if_neg hgt,
        if_neg h9, if_pos h10]
    · have hd2 : 5000 ≤ s.now := by omega
      simp only [select, hready, deadlineReady, ht, hd, decide_eq_true_eq,
        Bool.false_and, Bool.false_eq_true, if_false, if_pos hd2, if_neg h9, if_neg h10]

/-- With fast answers, none of them `SUCCESS`, a tick before the ninth leaves
the poller on time for the next one. -/
theorem onTime_step (w : World) (j : Str) (sent : List Request) (h : NeverSucceeds w j)
    (hfast : FastReplies w) (k : Nat) (hk : k < 9) (s : Poller) (hs : OnTime j sent k s) :
    OnTime j sent (k + 1) (pollStep w j s) := by
  obtain ⟨hphase, hticks, hsent, htaken, hlo, hhi⟩ := hs
  have hsel := select_of_onTime w s k htaken hlo hhi
  rw [if_pos hk] at hsel
  obtain ⟨b, status, hreply, hst, hne⟩ := h s.sent.length
  rw [pollStep_tick w j s b status hphase (by rw [hsel]) hreply hst, if_neg hne, hsel]
  have hl := hfast s.sent.length
  refine ⟨rfl, by simp only [hticks], ?_, rfl, Nat.le_add_right _ _, ?_⟩
  · simp only [hsent, List.replicate_succ', List.append_assoc]
  · have ht : tickMs = 500 := rfl
    simp only [ht] at hl ⊢
    omega

theorem pollLoop_onTime (w : World) (j : Str) (sent : List Request) (h : NeverSucceeds w j)
    (hfast : FastReplies w) (n k : Nat) (hk : k + n ≤ 9) (s : Poller)
    (hs : OnTime j sent k s) : OnTime j sent (k + n) (pollLoop w j n s) := by
  induction n generalizing k s with
  | zero => exact hs
  | succ n ih =>
    rw [pollLoop]
    have := ih (k + 1) (by omega) (pollStep w j s)
      (onTime_step w j sent h hfast k (by omega) s hs)
    rwa [Nat.add_assoc, Nat.add_comm 1 n] at this

/-- A poller that is on time after the tenth tick receives the deadline. -/
theorem onTime_ten (w : World) (j : Str) (sent : List Request) (s : Poller)
    (hs : OnTime j sent 10 s) : TimedOutAfter j sent 10 (pollStep w j s) := by
  obtain ⟨hphase, hticks, hsent, htaken, hlo, hhi⟩ := hs
  have hsel := select_of_onTime w s 10 htaken hlo hhi
  rw [if_neg (by decide), if_neg (by decide)] at hsel
  rw [pollStep_timeout w j s hphase (by rw [hsel])]
  exact ⟨rfl, hticks, hsent⟩

/-- A poller that is on time after the ninth tick receives the deadline, or
the tenth tick and then the deadline. -/
theorem onTime_nine (w : World) (j : Str) (sent : List Request) (h : NeverSucceeds w j)
    (hfast : FastReplies w) (s : Poller) (hs : OnTime j sent 9 s) :
    TimedOutAfter j sent 9 (pollLoop w j 2 s) ∨ TimedOutAfter j sent 10 (pollLoop w j 2 s) := by
  obtain ⟨hphase, hticks, hsent, htaken, hlo, hhi⟩ := hs
  have hsel := select_of_onTime w s 9 htaken hlo hhi
  rw [if_neg (by decide), if_pos rfl] at hsel
  have e2 : pollLoop w j 2 s = pollStep w j (pollStep w j s) := rfl
  rw [e2]
  cases hp : w.pickTick s.ticks with
  | false =>
    left
    rw [hp] at hsel
    have e1 : pollStep w j s = { s with phase := Phase.timedOut, now := (select w s).2 } :=
      pollStep_timeout w j s hphase (by rw [hsel]; rfl)
    rw [e1, pollStep_returned _ _ _ (fun hc => Phase.noConfusion hc)]
    exact ⟨rfl, hticks, hsent⟩
  | true =>
    right
    rw [hp] at hsel
    obtain ⟨b, status, hreply, hst, hne⟩ := h s.sent.length
    have e1 := pollStep_tick w j s b status hphase (by rw [hsel]; rfl) hreply hst
    rw [if_neg hne, hsel] at e1
    apply onTime_ten
    rw [e1]
    have hl := hfast s.sent.length
    have ht : tickMs = 500 := rfl
    have hd : timeoutMs = 5000 := rfl
    refine ⟨rfl, by simp only [hticks], ?_, ?_, ?_, ?_⟩
    · simp only [hsent, List.replicate_succ', List.append_assoc]
    · simp only [ht, hd]
    · simp only [ht, hd]; omega
    · simp only [ht, hd] at hl ⊢; omega

/-- With fast answers, none of them `SUCCESS`: from 11 passes on the loop has
returned `timed out`, after 9 or 10 status queries. -/
theorem waitForSonarJob_timedOutAfter (w : World) (sent : List Request) (j : Str)
    (h : NeverSucceeds w j) (hfast : FastReplies w) (fuel : Nat) (hfuel : 10 < fuel) :
    TimedOutAfter j sent 9 (waitForSonarJob w sent j fuel)
      ∨ TimedOutAfter j sent 10 (waitForSonarJob w sent j fuel) := by
  obtain ⟨m, rfl⟩ : ∃ m, fuel = 9 + (2 + m) := ⟨fuel - 11, by omega⟩
  have h0 : OnTime j sent 0 ⟨Phase.waiting, 0, sent, 0, 0⟩ :=
    ⟨rfl, rfl, by simp, rfl, Nat.le_refl _, by show (0 : Nat) < tickMs * (0 + 1); decide⟩
  have h9 := pollLoop_onTime w j sent h hfast 9 0 (by omega) _ h0
  rw [Nat.zero_add] at h9
  rw [waitForSonarJob, pollLoop_add, pollLoop_add]
  rcases onTime_nine w j sent h hfast _ h9 with hT | hT
  · rw [pollLoop_returned _ _ _ _ (by rw [hT.1]; exact fun hc => Phase.noConfusion hc)]
    exact Or.inl hT
  · rw [pollLoop_returned _ _ _ _ (by rw [hT.1]; exact fun hc => Phase.noConfusion hc)]
    exact Or.inr hT

/-- C3, as stated, fails: with every status query answered `FAILED` (or
`CANCELED`), the first tick leaves the poller waiting, and the loop goes on to
make nine status queries before it returns at the deadline. -/
theorem waitForSonarJob_failed_keeps_polling :
    pollStep (sampleWorld "FAILED".toList "OK".toList) "http://h/api/ce/task?id=1".toList
        ⟨Phase.waiting, 0, [], 0, 0⟩
      = ⟨Phase.waiting, 1, [jobRequest "http://h/api/ce/task?id=1".toList], 500, 500⟩
    ∧ waitForSonarJob (sampleWorld "FAILED".toList "OK".toList) []
        "http://h/api/ce/task?id=1".toList 11
      = ⟨Phase.timedOut, 9,
          List.replicate 9 (jobRequest "http://h/api/ce/task?id=1".toList), 5000, 4500⟩
    ∧ waitForSonarJob (sampleWorld "CANCELED".toList "OK".toList) []
        "http://h/api/ce/task?id=1".toList 11
      = ⟨Phase.timedOut, 9,
          List.replicate 9 (jobRequest "http://h/api/ce/task?id=1".toList), 5000, 4500⟩ := by
  decide

/-- C3, amended: on a tick whose status query is answered with task status
`FAILED` or `CANCELED`, the poller makes that one query, stays in the waiting
phase and returns nothing. -/
theorem pollStep_failed_or_canceled (w : World) (j : Str) (s : Poller) (b status : Str)
    (hphase : s.phase = Phase.waiting) (hsel : (select w s).1 = Event.tick)
    (hreply : w.httpDo s.sent.length (jobRequest j) = Reply.body b)
    (hst : checkSonarJobStatus w b = Except.ok status)
    (hfc : status = "FAILED".toList ∨ status = "CANCELED".toList) :
    pollStep w j s
        = ⟨Phase.waiting, s.ticks + 1, s.sent ++ [jobRequest j],
            (select w s).2 + w.latency s.sent.length, (select w s).2⟩
      ∧ Phase.returned (pollStep w j s).phase = none := by
  have hne : status ≠ "SUCCESS".toList := by
    rcases hfc with rfl | rfl <;> decide
  have e := pollStep_tick w j s b status hphase hsel hreply hst
  rw [if_neg hne] at e
  rw [e]
  exact ⟨rfl, rfl⟩

/-- Witness of `pollStep_failed_or_canceled`: the fourth tick, answered
`CANCELED`. -/
theorem pollStep_failed_or_canceled_witness :
    pollStep (sampleWorld "CANCELED".toList "OK".toList) "http://h/api/ce/task?id=1".toList
        ⟨Phase.waiting, 3, [], 1500, 1500⟩
      = ⟨Phase.waiting, 4, [jobRequest "http://h/api/ce/task?id=1".toList], 2000, 2000⟩
    ∧ Phase.returned (pollStep (sampleWorld "CANCELED".toList "OK".toList)
        "http://h/api/ce/task?id=1".toList ⟨Phase.waiting, 3, [], 1500, 1500⟩).phase = none :=
  pollStep_failed_or_canceled (sampleWorld "CANCELED".toList "OK".toList)
    "http://h/api/ce/task?id=1".toList ⟨Phase.waiting, 3, [], 1500, 1500⟩ [] "CANCELED".toList
    rfl (by decide) rfl rfl (Or.inr rfl)

/-- C4, as stated, fails: with every status query answered `PENDING` after
510 ms, each query is still going when the next tick fires; the ninth ends
after the deadline, `select` then finds both channels ready, takes the tick
twice and the deadline the third time, and the loop returns `timed out` after
11 status queries. -/
theorem waitForSonarJob_slow_replies :
    NeverSucceeds (slowWorld "PENDING".toList "OK".toList) "http://h/api/ce/task?id=1".toList
    ∧ waitForSonarJob (slowWorld "PENDING".toList "OK".toList) []
        "http://h/api/ce/task?id=1".toList 12
      = ⟨Phase.timedOut, 11,
          List.replicate 11 (jobRequest "http://h/api/ce/task?id=1".toList), 6110, 5600⟩
    ∧ ¬ (waitForSonarJob (slowWorld "PENDING".toList "OK".toList) []
        "http://h/api/ce/task?id=1".toList 12).ticks ≤ timeoutMs / tickMs :=
  ⟨fun _ => ⟨[], "PENDING".toList, rfl, rfl, by decide⟩, by decide, by decide⟩

/-- C4, amended: when no answer to a status query is `SUCCESS` and every
answer takes less than the 500 ms between ticks, every tick leaves the poller
in the waiting phase with one more query made, and with more than
`timeoutMs / tickMs = 10` passes of fuel the loop has returned
`false, "timed out"` after 9 or 10 status queries, whatever the fuel. -/
theorem waitForSonarJob_times_out (w : World) (sent : List Request) (j : Str)
    (h : NeverSucceeds w j) (hfast : FastReplies w) :
    (∀ s : Poller, s.phase = Phase.waiting → (select w s).1 = Event.tick →
        pollStep w j s
          = ⟨Phase.waiting, s.ticks + 1, s.sent ++ [jobRequest j],
              (select w s).2 + w.latency s.sent.length, (select w s).2⟩)
    ∧ ∀ fuel, timeoutMs / tickMs < fuel →
        (waitForSonarJob w sent j fuel).phase = Phase.timedOut
        ∧ Phase.returned (waitForSonarJob w sent j fuel).phase
            = some (false, some "timed out".toList)
        ∧ (waitForSonarJob w sent j fuel).ticks ≤ timeoutMs / tickMs
        ∧ 9 ≤ (waitForSonarJob w sent j fuel).ticks
        ∧ (waitForSonarJob w sent j fuel).sent
            = sent ++ List.replicate (waitForSonarJob w sent j fuel).ticks (jobRequest j) := by
  constructor
  · intro s hphase hsel
    obtain ⟨b, status, hreply, hst, hne⟩ := h s.sent.length
    rw [pollStep_tick w j s b status hphase hsel hreply hst, if_neg hne]
  · intro fuel hfuel
    have hq : timeoutMs / tickMs = 10 := by decide
    rw [hq] at hfuel ⊢
    rcases waitForSonarJob_timedOutAfter w sent j h hfast fuel hfuel with hT | hT
    · obtain ⟨hp, ht, hs⟩ := hT
      rw [hp, ht, hs]
      exact ⟨rfl, rfl, by omega, Nat.le_refl 9, rfl⟩
    · obtain ⟨hp, ht, hs⟩ := hT
      rw [hp, ht, hs]
      exact ⟨rfl, rfl, Nat.le_refl 10, by omega, rfl⟩

/-- Witness of `waitForSonarJob_times_out`: a server that answers `PENDING`
and `IN_PROGRESS` in turn, each answer after 120 ms. -/
theorem waitForSonarJob_times_out_witness :
    (waitForSonarJob
        (jsonWorld fun n => if n % 2 = 0 then "PENDING".toList else "IN_PROGRESS".toList) []
        "http://h/api/ce/task?id=1".toList 11).phase = Phase.timedOut :=
  ((waitForSonarJob_times_out
    (jsonWorld fun n => if n % 2 = 0 then "PENDING".toList else "IN_PROGRESS".toList) []
    "http://h/api/ce/task?id=1".toList
    (fun n => by
      rcases Nat.mod_two_eq_zero_or_one n with h0 | h1
      · exact ⟨taskOpen ++ "PENDING".toList ++ taskClose, "PENDING".toList,
          by simp only [jsonWorld, h0, if_true], by decide, by decide⟩
      · exact ⟨taskOpen ++ "IN_PROGRESS".toList ++ taskClose, "IN_PROGRESS".toList,
          by simp only [jsonWorld, h1]; rfl, by decide, by decide⟩)
    (fun _ => by show (120 : Nat) < tickMs; decide)).2 11 (by decide)).1

/-- C5: when the answer to the first status query decodes to task status
`SUCCESS`, `waitForSonarJob` returns `true, nil` after exactly one status
query, for every positive fuel; and for every body `checkSonarJobStatus`
returns the task status of what the body decodes to, and is fatal when the
body does not decode. -/
theorem waitForSonarJob_first_tick_success (w : World) (sent : List Request) (j b : Str)
    (st : JobStatus) (hreply : w.httpDo sent.length (jobRequest j) = Reply.body b)
    (hparse : w.unmarshalJobStatus b = some st)
    (hs : st.Task.Status = "SUCCESS".toList) (fuel : Nat) (hfuel : 0 < fuel) :
    waitForSonarJob w sent j fuel
        = ⟨Phase.succeeded, 1, sent ++ [jobRequest j], tickMs + w.latency sent.length, tickMs⟩
      ∧ Phase.returned (waitForSonarJob w sent j fuel).phase = some (true, none)
      ∧ (∀ (b' : Str) (st' : JobStatus), w.unmarshalJobStatus b' = some st' →
          checkSonarJobStatus w b' = Except.ok st'.Task.Status)
      ∧ (∀ b' : Str, w.unmarshalJobStatus b' = none →
          checkSonarJobStatus w b' = Except.error (Failure.fatal "Failed".toList)) := by
  have hst : checkSonarJobStatus w b = Except.ok st.Task.Status := by
    simp only [checkSonarJobStatus, hparse]
  obtain ⟨m, rfl⟩ : ∃ m, fuel = 1 + m := ⟨fuel - 1, by omega⟩
  have hsel : select w ⟨Phase.waiting, 0, sent, 0, 0⟩ = (Event.tick, tickMs) := by
    have := select_of_onTime w ⟨Phase.waiting, 0, sent, 0, 0⟩ 0 rfl (Nat.le_refl _)
      (by show (0 : Nat) < tickMs * (0 + 1); decide)
    rw [if_pos (by decide)] at this
    exact this
  have e : waitForSonarJob w sent j (1 + m)
      = ⟨Phase.succeeded, 1, sent ++ [jobRequest j], tickMs + w.latency sent.length,
          tickMs⟩ := by
    rw [waitForSonarJob, pollLoop_add]
    have e1 : pollLoop w j 1 ⟨Phase.waiting, 0, sent, 0, 0⟩
        = ⟨Phase.succeeded, 1, sent ++ [jobRequest j], tickMs + w.latency sent.length,
            tickMs⟩ := by
      rw [pollLoop, pollStep_tick w j _ b _ rfl (by rw [hsel]) hreply hst, if_pos hs, hsel]
      rfl
    rw [e1, pollLoop_returned]
    exact fun hc => Phase.noConfusion hc
  rw [e]
  refine ⟨rfl, rfl, ?_, ?_⟩
  · intro b' st' h'
    simp only [checkSonarJobStatus, h']
  · intro b' h'
    simp only [checkSonarJobStatus, h']

/-- Witness of `waitForSonarJob_first_tick_success`: a server that answers
`SUCCESS` at once; the task status of a `PENDING` body is `PENDING`. -/
theorem waitForSonarJob_first_tick_success_witness :
    waitForSonarJob (jsonWorld fun _ => "SUCCESS".toList) []
        "http://h/api/ce/task?id=1".toList 11
      = ⟨Phase.succeeded, 1, [jobRequest "http://h/api/ce/task?id=1".toList], 620, 500⟩
    ∧ checkSonarJobStatus (jsonWorld fun _ => "SUCCESS".toList)
        (taskOpen ++ "PENDING".toList ++ taskClose) = Except.ok "PENDING".toList :=
  ⟨(waitForSonarJob_first_tick_success (jsonWorld fun _ => "SUCCESS".toList) []
      "http://h/api/ce/task?id=1".toList (taskOpen ++ "SUCCESS".toList ++ taskClose)
      ⟨taskWith "SUCCESS".toList⟩ rfl (by decide) rfl 11 (by decide)).1,
    (waitForSonarJob_first_tick_success (jsonWorld fun _ => "SUCCESS".toList) []
      "http://h/api/ce/task?id=1".toList (taskOpen ++ "SUCCESS".toList ++ taskClose)
      ⟨taskWith "SUCCESS".toList⟩ rfl (by decide) rfl 11 (by decide)).2.2.1
      (taskOpen ++ "PENDING".toList ++ taskClose) ⟨taskWith "PENDING".toList⟩ (by decide)⟩

/-! ## `Exec` -/

/-- A request that can be built is added to the requests by `getStatus`. -/
theorem getStatus_fst (w : World) (sent : List Request) (sonarUrl Key : Str)
    (h : w.httpDo sent.length (statusRequest sonarUrl Key) ≠ Reply.invalid) :
    (getStatus w sent sonarUrl Key).1 = sent ++ [statusRequest sonarUrl Key] := by
  simp only [getStatus]
  split
  · rename_i hinv
    exact absurd hinv h
  · rfl
  · rfl
  · rfl

/-- When `http.NewRequest` fails, `getStatus` builds no request and panics. -/
theorem getStatus_invalid (w : World) (sent : List Request) (sonarUrl Key : Str)
    (h : w.httpDo sent.length (statusRequest sonarUrl Key) = Reply.invalid) :
    getStatus w sent sonarUrl Key = (sent, some (Except.error nilDereference)) := by
  simp only [getStatus, h]

/-- The test of `Exec` passes exactly for status `OK` with expected value
`OK`. -/
theorem gateFailed_eq_false_iff (s quality : Str) :
    gateFailed s quality = false ↔ s = quality ∧ s = "OK".toList := by
  simp [gateFailed]

/-- Once the polling has returned `true`, `Exec` calls `getStatus` and ends as
`getStatus`, `checkStatus` and the test decide. -/
theorem Exec_after_polling (w : World) (fuel : Nat) (p : Plugin) (j : Str)
    (hbuild : buildScannerProperties w p = Except.ok none)
    (hscan : staticScan w = Except.ok j)
    (hpoll : (waitForSonarJob w [] j fuel).phase = Phase.succeeded) :
    (Exec w fuel p).sent = (getStatus w (waitForSonarJob w [] j fuel).sent p.Host
        (normalizedKey p.Key ++ (":".toList ++ p.Branch))).1
    ∧ (Exec w fuel p).result =
        match (getStatus w (waitForSonarJob w [] j fuel).sent p.Host
            (normalizedKey p.Key ++ (":".toList ++ p.Branch))).2 with
        | none => none
        | some (Except.error f) => some (Except.error f)
        | some (Except.ok body) =>
          match checkStatus w body with
          | Except.error f => some (Except.error f)
          | Except.ok s =>
            if gateFailed s p.Quality then
              some (Except.error (Failure.fatal "QualityGate status failed".toList))
            else some (Except.ok none) := by
  simp only [Exec, hbuild, hscan, hpoll]
  rcases getStatus w (waitForSonarJob w [] j fuel).sent p.Host
      (normalizedKey p.Key ++ (":".toList ++ p.Branch)) with ⟨a, r⟩
  cases r with
  | none => exact ⟨rfl, rfl⟩
  | some r =>
    cases r with
    | error f => exact ⟨rfl, rfl⟩
    | ok body =>
      cases hc : checkStatus w body with
      | error f => simp [hc]
      | ok s => by_cases hg : gateFailed s p.Quality = true <;> simp [hc, hg]

/-- With the earlier stages done and gate status `s`, the test alone decides
how `Exec` ends. -/
theorem Exec_of_stagesSucceed (w : World) (fuel : Nat) (p : Plugin) (s : Str)
    (h : StagesSucceed w fuel p s) :
    (Exec w fuel p).result = some
      (if gateFailed s p.Quality then
        Except.error (Failure.fatal "QualityGate status failed".toList)
      else Except.ok none) := by
  obtain ⟨j, body, hbuild, hscan, hpoll, hget, hcheck⟩ := h
  rw [(Exec_after_polling w fuel p j hbuild hscan hpoll).2, hget]
  simp only [hcheck]
  split <;> rfl

/-- C6, as stated, fails: with expected value `WARN`, all earlier stages
succeeding and gate status `OK`, `Exec` ends with the fatal entry
`QualityGate status failed` and exit status 1. -/
theorem Exec_fails_on_ok_status :
    StagesSucceed (sampleWorld "SUCCESS".toList "OK".toList) 11
        (samplePlugin "WARN".toList) "OK".toList
      ∧ (Exec (sampleWorld "SUCCESS".toList "OK".toList) 11
          (samplePlugin "WARN".toList)).result
        = some (Except.error (Failure.fatal "QualityGate status failed".toList))
      ∧ Option.map exitCode (Exec (sampleWorld "SUCCESS".toList "OK".toList) 11
          (samplePlugin "WARN".toList)).result = some 1 :=
  ⟨⟨"http://sonar.local/api/ce/task?id=AV1".toList, [], rfl, by decide, by decide, rfl, rfl⟩,
    by decide, by decide⟩

/-- C6, amended: when the earlier stages succeed, gate status `OK` makes `Exec`
return `nil` (exit status 0) if the expected value is `OK`, and gate status
`ERROR` makes it end with a fatal entry (exit status 1) for every expected
value. -/
theorem Exec_verdict (w : World) (fuel : Nat) (p : Plugin) (s : Str)
    (h : StagesSucceed w fuel p s) :
    (s = "OK".toList → p.Quality = "OK".toList →
        (Exec w fuel p).result = some (Except.ok none)
        ∧ Option.map exitCode (Exec w fuel p).result = some 0)
    ∧ (s = "ERROR".toList →
        (Exec w fuel p).result
          = some (Except.error (Failure.fatal "QualityGate status failed".toList))
        ∧ Option.map exitCode (Exec w fuel p).result = some 1) := by
  have e := Exec_of_stagesSucceed w fuel p s h
  constructor
  · intro hs hq
    have hg : gateFailed s p.Quality = false :=
      (gateFailed_eq_false_iff s p.Quality).2 ⟨by rw [hs, hq], hs⟩
    rw [hg] at e
    rw [e]
    exact ⟨rfl, rfl⟩
  · intro hs
    have hg : gateFailed s p.Quality = true := by
      cases hgf : gateFailed s p.Quality with
      | true => rfl
      | false =>
        have := ((gateFailed_eq_false_iff s p.Quality).1 hgf).2
        rw [hs] at this
        exact absurd this (by decide)
    rw [hg] at e
    rw [e]
    exact ⟨rfl, rfl⟩

/-- Witness of `Exec_verdict`: gate status `OK` with the default expected
value. -/
theorem Exec_verdict_witness :
    (Exec (sampleWorld "SUCCESS".toList "OK".toList) 11 (samplePlugin "OK".toList)).result
        = some (Except.ok none)
      ∧ Option.map exitCode (Exec (sampleWorld "SUCCESS".toList "OK".toList) 11
          (samplePlugin "OK".toList)).result = some 0 :=
  (Exec_verdict (sampleWorld "SUCCESS".toList "OK".toList) 11 (samplePlugin "OK".toList)
    "OK".toList
    ⟨"http://sonar.local/api/ce/task?id=AV1".toList, [], rfl, by decide, by decide, rfl, rfl⟩).1
    rfl rfl

/-- C7: the request of `getStatus` is a POST to the host followed by
`/api/qualitygates/project_status` with body `projectKey=` and the key; when
the request can be built `getStatus` adds exactly that request to those
built, and when `http.NewRequest` fails it adds none and panics; when `Exec`
gets past the polling and the request can be built, the request it adds has
as key the normalised key, `:` and the branch; for host `http://sonar.local`,
key `org/repo`, branch `main` the body is `projectKey=org:repo:main`. -/
theorem Exec_gate_request :
    (∀ host key : Str, statusRequest host key
        = ⟨"POST".toList, host ++ "/api/qualitygates/project_status".toList,
            "projectKey=".toList ++ key, requestHeaders⟩)
    ∧ (∀ (w : World) (sent : List Request) (host key : Str),
        w.httpDo sent.length (statusRequest host key) ≠ Reply.invalid →
        (getStatus w sent host key).1 = sent ++ [statusRequest host key])
    ∧ (∀ (w : World) (sent : List Request) (host key : Str),
        w.httpDo sent.length (statusRequest host key) = Reply.invalid →
        getStatus w sent host key = (sent, some (Except.error nilDereference)))
    ∧ (∀ (w : World) (fuel : Nat) (p : Plugin) (j : Str),
        buildScannerProperties w p = Except.ok none → staticScan w = Except.ok j →
        (waitForSonarJob w [] j fuel).phase = Phase.succeeded →
        w.httpDo (waitForSonarJob w [] j fuel).sent.length
            (statusRequest p.Host (normalizedKey p.Key ++ (":".toList ++ p.Branch)))
          ≠ Reply.invalid →
        (Exec w fuel p).sent = (waitForSonarJob w [] j fuel).sent
          ++ [⟨"POST".toList, p.Host ++ "/api/qualitygates/project_status".toList,
              "projectKey=".toList ++ (normalizedKey p.Key ++ (":".toList ++ p.Branch)),
              requestHeaders⟩])
    ∧ (Exec (sampleWorld "SUCCESS".toList "OK".toList) 11
          (samplePlugin "OK".toList)).sent.getLast?
        = some ⟨"POST".toList, "http://sonar.local/api/qualitygates/project_status".toList,
            "projectKey=org:repo:main".toList, requestHeaders⟩ := by
  refine ⟨fun _ _ => rfl, getStatus_fst, getStatus_invalid, ?_, by decide⟩
  intro w fuel p j hbuild hscan hpoll hreq
  rw [(Exec_after_polling w fuel p j hbuild hscan hpoll).1, getStatus_fst w _ _ _ hreq]
  rfl

/-- Witness of `Exec_gate_request`: the requests of a run that passes. -/
theorem Exec_gate_request_witness :
    (Exec (sampleWorld "SUCCESS".toList "OK".toList) 11 (samplePlugin "OK".toList)).sent
      = (waitForSonarJob (sampleWorld "SUCCESS".toList "OK".toList) []
          "http://sonar.local/api/ce/task?id=AV1".toList 11).sent
        ++ [⟨"POST".toList, (samplePlugin "OK".toList).Host
              ++ "/api/qualitygates/project_status".toList,
            "projectKey=".toList ++ (normalizedKey (samplePlugin "OK".toList).Key
              ++ (":".toList ++ (samplePlugin "OK".toList).Branch)),
            requestHeaders⟩] :=
  Exec_gate_request.2.2.2.1 (sampleWorld "SUCCESS".toList "OK".toList) 11
    (samplePlugin "OK".toList) "http://sonar.local/api/ce/task?id=AV1".toList
    rfl (by decide) (by decide) (by decide)

/-- C9: the test of `Exec` passes exactly when the gate status equals the
expected value and equals `OK`; so, with the earlier stages done, `Exec`
returns `nil` exactly then, and for an expected value other than `OK` it ends
with the fatal entry `QualityGate status failed` for every gate status. -/
theorem Exec_gate_test :
    (∀ s quality : Str, gateFailed s quality = false ↔ s = quality ∧ s = "OK".toList)
    ∧ (∀ (w : World) (fuel : Nat) (p : Plugin) (s : Str), StagesSucceed w fuel p s →
        ((Exec w fuel p).result = some (Except.ok none)
            ↔ s = p.Quality ∧ s = "OK".toList)
        ∧ (p.Quality ≠ "OK".toList →
            (Exec w fuel p).result
              = some (Except.error (Failure.fatal "QualityGate status failed".toList)))) := by
  refine ⟨gateFailed_eq_false_iff, ?_⟩
  intro w fuel p s h
  have e := Exec_of_stagesSucceed w fuel p s h
  cases hg : gateFailed s p.Quality with
  | false =>
    have hs := (gateFailed_eq_false_iff s p.Quality).1 hg
    rw [hg] at e
    rw [e]
    refine ⟨⟨fun _ => hs, fun _ => rfl⟩, ?_⟩
    intro hq
    exact absurd (hs.1.symm.trans hs.2) hq
  | true =>
    rw [hg] at e
    rw [e]
    refine ⟨⟨?_, ?_⟩, fun _ => rfl⟩
    · intro hc
      simp at hc
    · intro hs
      have := (gateFailed_eq_false_iff s p.Quality).2 hs
      rw [hg] at this
      exact absurd this (by decide)

/-- Witness of `Exec_gate_test`: with expected value `WARN` and gate status
`WARN` the run fails. -/
theorem Exec_gate_test_witness :
    (Exec (sampleWorld "SUCCESS".toList "WARN".toList) 11
        (samplePlugin "WARN".toList)).result
      = some (Except.error (Failure.fatal "QualityGate status failed".toList)) :=
  (Exec_gate_test.2 (sampleWorld "SUCCESS".toList "WARN".toList) 11
    (samplePlugin "WARN".toList) "WARN".toList
    ⟨"http://sonar.local/api/ce/task?id=AV1".toList, [], rfl, by decide, by decide, rfl, rfl⟩).2
    (by decide)

end Sonar
